import Mathlib

/-
Verification development for the concurrent buffer cache (Project6).
The definitions below are a shallow embedding of the C sources:
  src/unnamed/part_000  (the most complete variant: find_or_create_block,
                         bcache_read, bcache_write, bcache_sync)
  src/bcache.c          (variant with explicit allocation-failure handling,
                         embedded in namespace CVariant)
Caller-visible sequential behaviour is modelled; the transient states a
thread passes through while holding a per-block mutex are collapsed into
one atomic state transformer, which is the observable behaviour of the C
code at its quiescent points.  A separate small-step interleaving model
of the read path appears further below for the concurrent-reader claim.
-/

/-- Fixed block size of the cache, 4096 bytes (char data[4096] in struct block). -/
def BSIZE : Nat := 4096

/-- A 4096-byte payload, modelled as a function from index to byte value. -/
def Buf : Type := Fin BSIZE → Nat

/-- Modelled from the spec (section 6): the Device Adapter (disk.h is not in
the repository).  It exposes read, write and block_count; the mock counters
record how many transfers the device has served (spec section 8 uses such a
device mock to count transfers). -/
structure Disk where
  nblocks : Nat
  content : Nat → Buf
  reads : Nat
  writes : Nat

/-- Modelled from the spec: disk_read fills a buffer with the stored content
of the named block; the mock read counter is advanced. -/
def disk_read (d : Disk) (blocknum : Nat) : Disk × Buf :=
  ({ d with reads := d.reads + 1 }, d.content blocknum)

/-- Modelled from the spec: disk_write persists the buffer at the named
block; the mock write counter is advanced. -/
def disk_write (d : Disk) (blocknum : Nat) (data : Buf) : Disk :=
  { d with writes := d.writes + 1, content := Function.update d.content blocknum data }

/-- Modelled from the spec: disk_nblocks returns the number of addressable
blocks on the device. -/
def disk_nblocks (d : Disk) : Nat := d.nblocks

/-- The per-block state machine (block_state enum, identical in all three
source variants). -/
inductive BlockState : Type | FREE | READING | READY | DIRTY | WRITING
deriving DecidableEq

/-- One cache entry (struct block).  The mutex, condition variable and next
pointer of the C struct are represented by the surrounding list structure
and by the sequential semantics of the operations. -/
structure Block where
  blocknum : Nat
  state : BlockState
  data : Buf

/-- The cache object (struct bcache).  The disk pointer is carried
separately in Sys so that device mutation is visible in theorems. -/
structure BCache where
  cache : List Block
  memory_blocks : Int
  nreads : Nat
  nwrites : Nat

/-- Whole-system state: the device together with the cache. -/
structure Sys where
  disk : Disk
  bc : BCache

/-- Content of freshly malloc-ed, uninitialized block memory.  The C code
never reads it before overwriting all 4096 bytes, so any fixed value is a
faithful model. -/
def mallocGarbage : Buf := fun _ => 0

/-- Embeds the lookup loop of find_or_create_block (src/unnamed/part_000
lines 75-79): first list node whose blocknum matches, any state. -/
def findBlock (l : List Block) (blocknum : Nat) : Option Block :=
  l.find? fun x => x.blocknum == blocknum

/-- Replace the first list node satisfying the predicate, mirroring an
in-place mutation through the pointer returned by a lookup. -/
def updateFirst (p : Block → Bool) (f : Block → Block) : List Block → List Block
  | [] => []
  | x :: rest => if p x then f x :: rest else x :: updateFirst p f rest

/-- Embeds find_or_create_block (src/unnamed/part_000 lines 74-94): return
the cache unchanged when the block number is resident, otherwise prepend a
new entry in state BLOCK_FREE.  Allocation is assumed to succeed here; the
allocation-failure path of the bcache.c variant is embedded in CVariant. -/
def find_or_create_block (bc : BCache) (blocknum : Nat) : BCache :=
  match findBlock bc.cache blocknum with
  | some _ => bc
  | none =>
    { bc with cache := { blocknum := blocknum, state := BlockState.FREE,
                         data := mallocGarbage } :: bc.cache }

/-- Embeds the body of bcache_read acting on the located entry
(src/unnamed/part_000 lines 103-115): a FREE or DIRTY entry is marked
READING, filled from the disk and marked READY; any other state is left
alone.  The transient READING state is unobservable sequentially. -/
def readEnsure (d : Disk) (blocknum : Nat) (b : Block) : Disk × Block :=
  match b.state with
  | BlockState.FREE =>
    let r := disk_read d blocknum
    (r.1, { b with state := BlockState.READY, data := r.2 })
  | BlockState.DIRTY =>
    let r := disk_read d blocknum
    (r.1, { b with state := BlockState.READY, data := r.2 })
  | _ => (d, b)

/-- Embeds bcache_read (src/unnamed/part_000 lines 96-124).  After the
conditional re-read the caller waits until the entry is READY; with no
other thread to change the state, an entry that is not READY at that point
would block forever, which the model renders as none.  On success the
payload is copied out and nreads is incremented. -/
def bcache_read (s : Sys) (blocknum : Nat) : Option (Sys × Buf) :=
  let bc1 := find_or_create_block s.bc blocknum
  match findBlock bc1.cache blocknum with
  | none => none
  | some blk =>
    let d1 := (readEnsure s.disk blocknum blk).1
    let blk1 := (readEnsure s.disk blocknum blk).2
    if blk1.state = BlockState.READY then
      some ({ disk := d1,
              bc := { cache := updateFirst (fun x => x.blocknum == blocknum)
                        (fun _ => blk1) bc1.cache,
                      memory_blocks := bc1.memory_blocks,
                      nreads := bc1.nreads + 1,
                      nwrites := bc1.nwrites } }, blk1.data)
    else none

/-- Embeds bcache_write (src/unnamed/part_000 lines 126-136): find or
create the entry, overwrite its payload, mark it DIRTY, bump nwrites.  No
device transfer happens. -/
def bcache_write (s : Sys) (blocknum : Nat) (data : Buf) : Sys :=
  let bc1 := find_or_create_block s.bc blocknum
  { s with bc := { cache := updateFirst (fun x => x.blocknum == blocknum)
                     (fun b => { b with data := data, state := BlockState.DIRTY }) bc1.cache,
                   memory_blocks := bc1.memory_blocks,
                   nreads := bc1.nreads,
                   nwrites := bc1.nwrites + 1 } }

/-- Embeds the traversal of bcache_sync (src/unnamed/part_000 lines
138-158): every DIRTY entry is written to the device (passing through the
transient WRITING state) and marked READY; all other entries are left
untouched. -/
def syncList (d : Disk) : List Block → Disk × List Block
  | [] => (d, [])
  | b :: rest =>
    if b.state = BlockState.DIRTY then
      let d1 := disk_write d b.blocknum b.data
      let r := syncList d1 rest
      (r.1, { b with state := BlockState.READY } :: r.2)
    else
      let r := syncList d rest
      (r.1, b :: r.2)

/-- Embeds bcache_sync (src/unnamed/part_000 lines 138-158). -/
def bcache_sync (s : Sys) : Sys :=
  let r := syncList s.disk s.bc.cache
  { disk := r.1, bc := { s.bc with cache := r.2 } }

/-- Embeds bcache_create (src/unnamed/part_000 lines 55-72): store the
capacity, zero both counters, start with an empty list.  No validation of
the capacity argument is performed by the C code. -/
def bcache_create (memory_blocks : Int) : BCache :=
  { cache := [], memory_blocks := memory_blocks, nreads := 0, nwrites := 0 }

/-- bcache_create returns NULL exactly when malloc fails (src/bcache.c
lines 52-57); the allocOk flag models the malloc outcome. -/
def bcache_createF (allocOk : Bool) (memory_blocks : Int) : Option BCache :=
  if allocOk then some (bcache_create memory_blocks) else none

/-- A freshly created system: a device plus the cache bcache_create
returns. -/
def initSys (d : Disk) (memory_blocks : Int) : Sys :=
  { disk := d, bc := bcache_create memory_blocks }

/-- Embeds bcache_memory_blocks (src/unnamed/part_000 lines 201-204). -/
def bcache_memory_blocks (bc : BCache) : Int := bc.memory_blocks

/-- Embeds bcache_nreads (src/unnamed/part_000 lines 215-218). -/
def bcache_nreads (bc : BCache) : Nat := bc.nreads

/-- Embeds bcache_nwrites (src/unnamed/part_000 lines 222-225). -/
def bcache_nwrites (bc : BCache) : Nat := bc.nwrites

/-- Embeds bcache_disk_blocks (src/unnamed/part_000 lines 208-211). -/
def bcache_disk_blocks (s : Sys) : Nat := disk_nblocks s.disk

/-- A caller-issued operation on the cache. -/
inductive Op : Type
| rd (blocknum : Nat)
| wr (blocknum : Nat) (data : Buf)
| sy

/-- Run one operation; none when the operation would block forever. -/
def applyOp (s : Sys) : Op → Option Sys
| Op.rd b => (bcache_read s b).map (fun r => r.1)
| Op.wr b p => some (bcache_write s b p)
| Op.sy => some (bcache_sync s)

/-- Run a sequence of operations in order. -/
def runOps (s : Sys) : List Op → Option Sys
| [] => some s
| op :: rest => (applyOp s op).bind (fun s1 => runOps s1 rest)

/-- Number of read operations in a trace. -/
def countReads (ops : List Op) : Nat :=
  ops.countP fun op => match op with | Op.rd _ => true | _ => false

/-- Number of write operations in a trace. -/
def countWrites (ops : List Op) : Nat :=
  ops.countP fun op => match op with | Op.wr _ _ => true | _ => false

/-- No resident entry is in a transfer-in-flight state; this holds at
every quiescent point of the sequential semantics. -/
def noRW (bc : BCache) : Prop :=
  ∀ b ∈ bc.cache, b.state ≠ BlockState.READING ∧ b.state ≠ BlockState.WRITING

/-- The all-zero payload. -/
def bufZero : Buf := fun _ => 0

/-- The all-one payload. -/
def bufOne : Buf := fun _ => 1

/-- The all-seven payload. -/
def bufSeven : Buf := fun _ => 7

/-- A ten-block device holding zeroes everywhere, with fresh mock counters. -/
def dZ : Disk := { nblocks := 10, content := fun _ => bufZero, reads := 0, writes := 0 }

namespace CVariant

/-- Embeds find_block (src/bcache.c lines 74-83): first node whose block
number matches and whose state is not BLOCK_FREE. -/
def find_block (l : List Block) (blocknum : Nat) : Option Block :=
  l.find? fun x => x.blocknum == blocknum && !(x.state == BlockState.FREE)

/-- Embeds bcache_read of src/bcache.c lines 109-135, with the malloc
outcome made explicit.  When the block is absent and allocation fails the
function prints a diagnostic and returns with nothing changed; when the
block is present but not READY the function returns without copying or
counting. -/
def bcache_read (allocOk : Bool) (s : Sys) (blocknum : Nat) : Sys × Option Buf :=
  match find_block s.bc.cache blocknum with
  | none =>
    if allocOk then
      let r := disk_read s.disk blocknum
      let blk : Block := { blocknum := blocknum, state := BlockState.READY, data := r.2 }
      ({ disk := r.1,
         bc := { s.bc with cache := blk :: s.bc.cache, nreads := s.bc.nreads + 1 } },
       some r.2)
    else (s, none)
  | some blk =>
    if blk.state = BlockState.READY then
      ({ s with bc := { s.bc with nreads := s.bc.nreads + 1 } }, some blk.data)
    else (s, none)

/-- Embeds bcache_write of src/bcache.c lines 137-159, with the malloc
outcome made explicit: absent block and failed allocation returns with
nothing changed; otherwise the located or freshly prepended entry gets the
new payload and state BLOCK_DIRTY, and nwrites is incremented. -/
def bcache_write (allocOk : Bool) (s : Sys) (blocknum : Nat) (data : Buf) : Sys :=
  match find_block s.bc.cache blocknum with
  | none =>
    if allocOk then
      let blk : Block := { blocknum := blocknum, state := BlockState.DIRTY, data := data }
      { s with bc := { s.bc with cache := blk :: s.bc.cache, nwrites := s.bc.nwrites + 1 } }
    else s
  | some _ =>
    { s with bc := { s.bc with
        cache := updateFirst
          (fun x => x.blocknum == blocknum && !(x.state == BlockState.FREE))
          (fun b => { b with data := data, state := BlockState.DIRTY }) s.bc.cache,
        nwrites := s.bc.nwrites + 1 } }

end CVariant

/-- Claim C1: the spec requires that write(b, p) followed by read(b) with no
intervening write to b returns p.  The code violates this: bcache_read
treats a DIRTY entry like an unread one, re-reads the block from the
device, and returns the stale device content instead of the written
payload.  Concretely, on an all-zero device, write(0, ones) followed by
read(0) returns zeroes, not ones. -/
theorem c1_roundtrip_returns_disk_content :
    (bcache_read (bcache_write (initSys dZ 10) 0 bufOne) 0).map (fun r => r.2)
      = some bufZero
    ∧ bufZero ≠ bufOne := by
  refine ⟨rfl, fun h => ?_⟩
  exact absurd (congrFun h ⟨0, by norm_num [BSIZE]⟩) (by decide)

/-- Claim C2: the spec requires read and write to fail with OutOfRange for
block numbers at or beyond the device block count, before any state
mutation.  The code performs no range check at all: on a ten-block device,
write(10, p) creates an entry for block 10 and increments the write
counter, and read(10) succeeds and issues a device read at block 10. -/
theorem c2_out_of_range_not_rejected :
    disk_nblocks dZ ≤ 10
    ∧ (bcache_write (initSys dZ 2) 10 bufOne).bc.cache.length = 1
    ∧ bcache_nwrites (bcache_write (initSys dZ 2) 10 bufOne).bc = 1
    ∧ (bcache_read (initSys dZ 2) 10).map (fun r => r.1.disk.reads) = some 1 := by
  exact ⟨by decide, rfl, rfl, rfl⟩

/-- Claim C3, counterexample: the claim says create fails whenever the
capacity is below one, but bcache_create performs no validation: with a
successful allocation and capacity 0 it returns a cache (with both
counters zero), not an error. -/
theorem c3_create_accepts_zero_capacity :
    (0 : Int) < 1
    ∧ (bcache_createF true 0).isSome = true
    ∧ (bcache_createF true 0).map bcache_nreads = some 0
    ∧ (bcache_createF true 0).map bcache_nwrites = some 0 := by
  exact ⟨by decide, rfl, rfl, rfl⟩

/-- Claim C3, amended: create(device, capacity) performs no validation of
the capacity; whenever allocation succeeds it returns a usable cache with
read_count = 0 and write_count = 0, for every capacity value including
values below one, and it fails exactly when allocation fails. -/
theorem c3_create_no_validation (mb : Int) :
    bcache_createF true mb = some (bcache_create mb)
    ∧ bcache_nreads (bcache_create mb) = 0
    ∧ bcache_nwrites (bcache_create mb) = 0
    ∧ bcache_createF false mb = none := by
  exact ⟨rfl, rfl, rfl, rfl⟩

/-- Claim C4: the spec requires the number of resident entries never to
exceed the configured capacity, but the code never enforces the limit: the
list grows unboundedly.  With capacity 1, two writes to distinct blocks
leave two resident entries. -/
theorem c4_capacity_not_enforced :
    bcache_memory_blocks (bcache_write (bcache_write (initSys dZ 1) 0 bufZero) 1 bufZero).bc = 1
    ∧ (bcache_write (bcache_write (initSys dZ 1) 0 bufZero) 1 bufZero).bc.cache.length = 2 := by
  exact ⟨rfl, rfl⟩

/-- Claim C6: the spec requires that only the I/O Scheduler invokes the
Device Adapter, with read, write and sync merely marking intent and
waiting.  The code violates this: bcache_read performs a device read in
the calling thread (the device mock read counter advances inside the
call), and bcache_sync performs the device write itself. -/
theorem c6_callers_transfer_directly :
    (bcache_read (initSys dZ 2) 0).map (fun r => r.1.disk.reads) = some 1
    ∧ (bcache_sync (bcache_write (initSys dZ 2) 0 bufOne)).disk.writes = 1 := by
  exact ⟨rfl, rfl⟩

/-- Claim C9: when allocation of a new block entry fails inside read or
write (bcache.c lines 112-119 and 140-147), the operation returns with the
whole system unchanged: no entry added, no entry modified, no counter
incremented, and the read copies nothing to the caller. -/
theorem c9_alloc_failure_leaves_state_unchanged (s : Sys) (b : Nat) (p : Buf)
    (h : CVariant.find_block s.bc.cache b = none) :
    CVariant.bcache_read false s b = (s, none)
    ∧ CVariant.bcache_write false s b p = s := by
  constructor
  · simp [CVariant.bcache_read, h]
  · simp [CVariant.bcache_write, h]

/-- Witness for c9_alloc_failure_leaves_state_unchanged at a fresh cache
and block 0. -/
theorem c9_witness :
    CVariant.find_block (initSys dZ 2).bc.cache 0 = none
    ∧ CVariant.bcache_read false (initSys dZ 2) 0 = (initSys dZ 2, none)
    ∧ CVariant.bcache_write false (initSys dZ 2) 0 bufOne = initSys dZ 2 :=
  ⟨rfl, (c9_alloc_failure_leaves_state_unchanged (initSys dZ 2) 0 bufOne rfl).1,
        (c9_alloc_failure_leaves_state_unchanged (initSys dZ 2) 0 bufOne rfl).2⟩

/-- Unfolding lemma for findBlock on a nonempty list. -/
theorem findBlock_cons (a : Block) (t : List Block) (b2 : Nat) :
    findBlock (a :: t) b2 = if a.blocknum = b2 then some a else findBlock t b2 := by
  by_cases hq : a.blocknum = b2
  · rw [if_pos hq]; exact List.find?_cons_of_pos _ (beq_iff_eq.mpr hq)
  · rw [if_neg hq]
    exact List.find?_cons_of_neg _ (by simp only [beq_iff_eq]; exact hq)

/-- Looking up a block number other than the one find_or_create_block was
called with gives the same answer as before the call. -/
theorem findBlock_find_or_create_ne (bc : BCache) (b b2 : Nat) (h : b2 ≠ b) :
    findBlock (find_or_create_block bc b).cache b2 = findBlock bc.cache b2 := by
  cases hfb : findBlock bc.cache b with
  | some blk => simp [find_or_create_block, hfb]
  | none =>
    simp only [find_or_create_block, hfb]
    rw [findBlock_cons]
    exact if_neg fun hx => h hx.symm

/-- Updating the first entry with a given block number, with a function
that preserves the block number, leaves lookups of any other block number
unchanged. -/
theorem findBlock_updateFirst_ne (l : List Block) (b b2 : Nat) (f : Block → Block)
    (hf : ∀ x, (f x).blocknum = x.blocknum) (h : b2 ≠ b) :
    findBlock (updateFirst (fun x => x.blocknum == b) f l) b2 = findBlock l b2 := by
  induction l with
  | nil => rfl
  | cons a t ih =>
    by_cases hp : a.blocknum = b
    · have hcond : ¬ a.blocknum = b2 := fun hx => h (hx ▸ hp)
      simp only [updateFirst]
      rw [if_pos (beq_iff_eq.mpr hp)]
      rw [findBlock_cons, findBlock_cons, hf a]
      rw [if_neg hcond, if_neg hcond]
    · simp only [updateFirst]
      rw [if_neg (fun hx => hp (beq_iff_eq.mp hx))]
      rw [findBlock_cons, findBlock_cons, ih]

/-- Claim C10: bcache_write touches only the entry for its own block
number: the device (content and mock counters) is unchanged, the value
bcache_memory_blocks returns is unchanged, and the entry found for every
other block number is identical before and after. -/
theorem c10_write_frame (s : Sys) (b : Nat) (p : Buf) (b2 : Nat) (h : b2 ≠ b) :
    (bcache_write s b p).disk = s.disk
    ∧ bcache_memory_blocks (bcache_write s b p).bc = bcache_memory_blocks s.bc
    ∧ findBlock (bcache_write s b p).bc.cache b2 = findBlock s.bc.cache b2 := by
  refine ⟨rfl, ?_, ?_⟩
  · show (find_or_create_block s.bc b).memory_blocks = s.bc.memory_blocks
    cases hfb : findBlock s.bc.cache b <;> simp [find_or_create_block, hfb]
  · have hc : (bcache_write s b p).bc.cache
        = updateFirst (fun x => x.blocknum == b)
            (fun blk => { blk with data := p, state := BlockState.DIRTY })
            (find_or_create_block s.bc b).cache := rfl
    rw [hc, findBlock_updateFirst_ne (find_or_create_block s.bc b).cache b b2
          (fun blk => { blk with data := p, state := BlockState.DIRTY }) (fun x => rfl) h]
    exact findBlock_find_or_create_ne s.bc b b2 h

/-- Witness for c10_write_frame: writing block 0 on a fresh system leaves
the lookup of block 1 (and the device and the capacity) unchanged. -/
theorem c10_witness :
    (1 : Nat) ≠ 0
    ∧ (bcache_write (initSys dZ 2) 0 bufOne).disk = (initSys dZ 2).disk
    ∧ bcache_memory_blocks (bcache_write (initSys dZ 2) 0 bufOne).bc
        = bcache_memory_blocks (initSys dZ 2).bc
    ∧ findBlock (bcache_write (initSys dZ 2) 0 bufOne).bc.cache 1
        = findBlock (initSys dZ 2).bc.cache 1 :=
  ⟨by decide, (c10_write_frame (initSys dZ 2) 0 bufOne 1 (by decide)).1,
   (c10_write_frame (initSys dZ 2) 0 bufOne 1 (by decide)).2.1,
   (c10_write_frame (initSys dZ 2) 0 bufOne 1 (by decide)).2.2⟩

/-- Each member of the updated list is an old member or the image of an
old member under the update function. -/
theorem mem_updateFirst (p : Block → Bool) (f : Block → Block) (l : List Block) (x : Block)
    (hx : x ∈ updateFirst p f l) : x ∈ l ∨ ∃ y, y ∈ l ∧ x = f y := by
  induction l with
  | nil => simp [updateFirst] at hx
  | cons a t ih =>
    simp only [updateFirst] at hx
    by_cases hp : p a
    · rw [if_pos hp] at hx
      rcases List.mem_cons.mp hx with h1 | h1
      · exact Or.inr ⟨a, List.mem_cons_self a t, h1⟩
      · exact Or.inl (List.mem_cons_of_mem a h1)
    · rw [if_neg hp] at hx
      rcases List.mem_cons.mp hx with h1 | h1
      · exact Or.inl (List.mem_cons.mpr (Or.inl h1))
      · rcases ih h1 with h2 | ⟨y, hy, hxy⟩
        · exact Or.inl (List.mem_cons_of_mem a h2)
        · exact Or.inr ⟨y, List.mem_cons_of_mem a hy, hxy⟩

/-- Each member of the cache after find_or_create_block is an old member
or the freshly created FREE entry. -/
theorem mem_find_or_create (bc : BCache) (b : Nat) (x : Block)
    (hx : x ∈ (find_or_create_block bc b).cache) :
    x ∈ bc.cache ∨ x.state = BlockState.FREE := by
  revert hx
  cases hfb : findBlock bc.cache b with
  | some blk => intro hx; simp only [find_or_create_block, hfb] at hx; exact Or.inl hx
  | none =>
    intro hx
    simp only [find_or_create_block, hfb] at hx
    rcases List.mem_cons.mp hx with h1 | h1
    · exact Or.inr (by rw [h1])
    · exact Or.inl h1

/-- find_or_create_block changes no field other than the entry list. -/
theorem foc_fields (bc : BCache) (b : Nat) :
    (find_or_create_block bc b).memory_blocks = bc.memory_blocks
    ∧ (find_or_create_block bc b).nreads = bc.nreads
    ∧ (find_or_create_block bc b).nwrites = bc.nwrites := by
  cases hfb : findBlock bc.cache b <;> simp [find_or_create_block, hfb]

/-- Anatomy of a successful bcache_read: some entry in state READY
replaces the first entry with the requested block number, nreads grows by
one, and nothing else in the cache object changes. -/
theorem bcache_read_cases (s : Sys) (b : Nat) (s1 : Sys) (out : Buf)
    (h : bcache_read s b = some (s1, out)) :
    ∃ blk1 : Block, blk1.state = BlockState.READY
      ∧ s1.bc.cache = updateFirst (fun x => x.blocknum == b) (fun _ => blk1)
          (find_or_create_block s.bc b).cache
      ∧ s1.bc.nreads = s.bc.nreads + 1
      ∧ s1.bc.nwrites = s.bc.nwrites
      ∧ s1.bc.memory_blocks = s.bc.memory_blocks := by
  simp only [bcache_read] at h
  cases hfb : findBlock (find_or_create_block s.bc b).cache b with
  | none => rw [hfb] at h; cases h
  | some blk =>
    rw [hfb] at h
    simp only [] at h
    by_cases hr : (readEnsure s.disk b blk).2.state = BlockState.READY
    · rw [if_pos hr] at h
      injection h with hp
      injection hp with hs hout
      subst hs
      refine ⟨(readEnsure s.disk b blk).2, hr, rfl, ?_, ?_, ?_⟩
      · exact congrArg (fun n => n + 1) (foc_fields s.bc b).2.1
      · exact (foc_fields s.bc b).2.2
      · exact (foc_fields s.bc b).1
    · rw [if_neg hr] at h; cases h

/-- A successful bcache_read preserves the absence of in-flight states. -/
theorem noRW_read (s : Sys) (b : Nat) (s1 : Sys) (out : Buf)
    (h : bcache_read s b = some (s1, out)) (hq : noRW s.bc) : noRW s1.bc := by
  rcases bcache_read_cases s b s1 out h with ⟨blk1, hready, hc, _, _, _⟩
  intro x hx
  rw [hc] at hx
  rcases mem_updateFirst _ _ _ _ hx with h1 | ⟨y, hy, hxy⟩
  · rcases mem_find_or_create _ _ _ h1 with h2 | h2
    · exact hq x h2
    · constructor <;> simp [h2]
  · rw [hxy]; constructor <;> simp [hready]

/-- bcache_write preserves the absence of in-flight states. -/
theorem noRW_write (s : Sys) (b : Nat) (p : Buf) (hq : noRW s.bc) :
    noRW (bcache_write s b p).bc := by
  intro x hx
  have hc : (bcache_write s b p).bc.cache
      = updateFirst (fun y => y.blocknum == b)
          (fun blk => { blk with data := p, state := BlockState.DIRTY })
          (find_or_create_block s.bc b).cache := rfl
  rw [hc] at hx
  rcases mem_updateFirst _ _ _ _ hx with h1 | ⟨y, hy, hxy⟩
  · rcases mem_find_or_create _ _ _ h1 with h2 | h2
    · exact hq x h2
    · constructor <;> simp [h2]
  · rw [hxy]; constructor <;> simp

/-- Unfolding lemma for syncList at a DIRTY head. -/
theorem syncList_cons_dirty (d : Disk) (a : Block) (t : List Block)
    (ha : a.state = BlockState.DIRTY) :
    syncList d (a :: t)
      = ((syncList (disk_write d a.blocknum a.data) t).1,
         { a with state := BlockState.READY }
           :: (syncList (disk_write d a.blocknum a.data) t).2) := by
  simp [syncList, ha]

/-- Unfolding lemma for syncList at a non-DIRTY head. -/
theorem syncList_cons_clean (d : Disk) (a : Block) (t : List Block)
    (ha : ¬ a.state = BlockState.DIRTY) :
    syncList d (a :: t) = ((syncList d t).1, a :: (syncList d t).2) := by
  simp [syncList, ha]

/-- Each member of the entry list produced by syncList is READY or an old
member. -/
theorem mem_syncList (l : List Block) : ∀ (d : Disk) (x : Block),
    x ∈ (syncList d l).2 → x.state = BlockState.READY ∨ x ∈ l := by
  induction l with
  | nil => intro d x hx; simp [syncList] at hx
  | cons a t ih =>
    intro d x hx
    by_cases ha : a.state = BlockState.DIRTY
    · rw [syncList_cons_dirty d a t ha] at hx
      rcases List.mem_cons.mp hx with h1 | h1
      · exact Or.inl (by rw [h1])
      · rcases ih _ _ h1 with h2 | h2
        · exact Or.inl h2
        · exact Or.inr (List.mem_cons_of_mem a h2)
    · rw [syncList_cons_clean d a t ha] at hx
      rcases List.mem_cons.mp hx with h1 | h1
      · exact Or.inr (List.mem_cons.mpr (Or.inl h1))
      · rcases ih _ _ h1 with h2 | h2
        · exact Or.inl h2
        · exact Or.inr (List.mem_cons_of_mem a h2)

/-- After the syncList traversal, starting from a list with no WRITING
entry, no entry is DIRTY or WRITING: every DIRTY entry was written back
and marked READY, and no other entry changed. -/
theorem syncList_clears (l : List Block) : ∀ (d : Disk),
    (∀ b ∈ l, b.state ≠ BlockState.WRITING) →
    ∀ b ∈ (syncList d l).2, b.state ≠ BlockState.DIRTY ∧ b.state ≠ BlockState.WRITING := by
  induction l with
  | nil => intro d hq b hb; simp [syncList] at hb
  | cons a t ih =>
    intro d hq b hb
    by_cases ha : a.state = BlockState.DIRTY
    · rw [syncList_cons_dirty d a t ha] at hb
      rcases List.mem_cons.mp hb with h1 | h1
      · constructor <;> simp [h1]
      · exact ih _ (fun y hy => hq y (List.mem_cons_of_mem a hy)) b h1
    · rw [syncList_cons_clean d a t ha] at hb
      rcases List.mem_cons.mp hb with h1 | h1
      · rw [h1]; exact ⟨ha, hq a (List.mem_cons_self a t)⟩
      · exact ih _ (fun y hy => hq y (List.mem_cons_of_mem a hy)) b h1

/-- bcache_sync preserves the absence of in-flight states. -/
theorem noRW_sync (s : Sys) (hq : noRW s.bc) : noRW (bcache_sync s).bc := by
  intro x hx
  have hc : (bcache_sync s).bc.cache = (syncList s.disk s.bc.cache).2 := rfl
  rw [hc] at hx
  rcases mem_syncList s.bc.cache s.disk x hx with h1 | h1
  · constructor <;> simp [h1]
  · exact hq x h1

/-- Along any completed trace of operations, no entry is ever left in
state READING or WRITING: those states are transient inside a call. -/
theorem runOps_noRW (ops : List Op) : ∀ (s0 s : Sys),
    runOps s0 ops = some s → noRW s0.bc → noRW s.bc := by
  induction ops with
  | nil => intro s0 s h h0; simp only [runOps, Option.some.injEq] at h; rw [← h]; exact h0
  | cons op t ih =>
    intro s0 s h h0
    simp only [runOps] at h
    cases hap : applyOp s0 op with
    | none => rw [hap] at h; cases h
    | some s1 =>
      rw [hap] at h
      simp only [Option.some_bind] at h
      refine ih s1 s h ?_
      cases op with
      | rd b =>
        simp only [applyOp] at hap
        cases hrd : bcache_read s0 b with
        | none => rw [hrd] at hap; cases hap
        | some pr =>
          rw [hrd] at hap
          simp only [Option.map_some', Option.some.injEq] at hap
          exact hap ▸ noRW_read s0 b pr.1 pr.2 (by rw [hrd]) h0
      | wr b p =>
        simp only [applyOp, Option.some.injEq] at hap
        exact hap ▸ noRW_write s0 b p h0
      | sy =>
        simp only [applyOp, Option.some.injEq] at hap
        exact hap ▸ noRW_sync s0 h0

/-- Claim C5: on any cache state reachable by a completed sequence of
operations from a fresh cache, when bcache_sync returns no resident entry
is in state DIRTY or WRITING. -/
theorem c5_sync_leaves_no_dirty (d : Disk) (mb : Int) (ops : List Op) (s : Sys)
    (h : runOps (initSys d mb) ops = some s) :
    ∀ b ∈ (bcache_sync s).bc.cache,
      b.state ≠ BlockState.DIRTY ∧ b.state ≠ BlockState.WRITING := by
  have h0 : noRW (initSys d mb).bc := by
    intro x hx
    simp [initSys, bcache_create] at hx
  have hq := runOps_noRW ops _ _ h h0
  intro b hb
  have hc : (bcache_sync s).bc.cache = (syncList s.disk s.bc.cache).2 := rfl
  rw [hc] at hb
  exact syncList_clears s.bc.cache s.disk (fun y hy => (hq y hy).2) b hb

/-- Witness for c5_sync_leaves_no_dirty: one write of block 0, then sync;
the single resident entry is READY. -/
theorem c5_witness :
    runOps (initSys dZ 2) [Op.wr 0 bufOne] = some (bcache_write (initSys dZ 2) 0 bufOne)
    ∧ ({ blocknum := 0, state := BlockState.READY, data := bufOne } : Block).state
        ≠ BlockState.DIRTY
    ∧ ({ blocknum := 0, state := BlockState.READY, data := bufOne } : Block).state
        ≠ BlockState.WRITING :=
  ⟨rfl,
   (c5_sync_leaves_no_dirty dZ 2 [Op.wr 0 bufOne] _ rfl _ (List.Mem.head _)).1,
   (c5_sync_leaves_no_dirty dZ 2 [Op.wr 0 bufOne] _ rfl _ (List.Mem.head _)).2⟩

/-- bcache_write increments nwrites by exactly one and leaves nreads
alone. -/
theorem write_counts (s : Sys) (b : Nat) (p : Buf) :
    (bcache_write s b p).bc.nreads = s.bc.nreads
    ∧ (bcache_write s b p).bc.nwrites = s.bc.nwrites + 1 := by
  have h1 : (bcache_write s b p).bc.nreads = (find_or_create_block s.bc b).nreads := rfl
  have h2 : (bcache_write s b p).bc.nwrites = (find_or_create_block s.bc b).nwrites + 1 := rfl
  rw [h1, h2, (foc_fields s.bc b).2.1, (foc_fields s.bc b).2.2]
  exact ⟨rfl, rfl⟩

/-- bcache_sync changes neither counter. -/
theorem sync_counts (s : Sys) :
    (bcache_sync s).bc.nreads = s.bc.nreads
    ∧ (bcache_sync s).bc.nwrites = s.bc.nwrites :=
  ⟨rfl, rfl⟩

/-- countReads counts a leading read. -/
theorem countReads_cons_rd (b : Nat) (t : List Op) :
    countReads (Op.rd b :: t) = countReads t + 1 := by
  simp [countReads, List.countP_cons]

/-- countReads skips a leading write. -/
theorem countReads_cons_wr (b : Nat) (p : Buf) (t : List Op) :
    countReads (Op.wr b p :: t) = countReads t := by
  simp [countReads, List.countP_cons]

/-- countReads skips a leading sync. -/
theorem countReads_cons_sy (t : List Op) :
    countReads (Op.sy :: t) = countReads t := by
  simp [countReads, List.countP_cons]

/-- countWrites skips a leading read. -/
theorem countWrites_cons_rd (b : Nat) (t : List Op) :
    countWrites (Op.rd b :: t) = countWrites t := by
  simp [countWrites, List.countP_cons]

/-- countWrites counts a leading write. -/
theorem countWrites_cons_wr (b : Nat) (p : Buf) (t : List Op) :
    countWrites (Op.wr b p :: t) = countWrites t + 1 := by
  simp [countWrites, List.countP_cons]

/-- countWrites skips a leading sync. -/
theorem countWrites_cons_sy (t : List Op) :
    countWrites (Op.sy :: t) = countWrites t := by
  simp [countWrites, List.countP_cons]

/-- Counter bookkeeping along a completed trace: every read adds exactly
one to nreads and every write exactly one to nwrites; nothing else touches
either counter. -/
theorem runOps_counts (ops : List Op) : ∀ (s0 s : Sys),
    runOps s0 ops = some s →
    s.bc.nreads = s0.bc.nreads + countReads ops
    ∧ s.bc.nwrites = s0.bc.nwrites + countWrites ops := by
  induction ops with
  | nil =>
    intro s0 s h
    simp only [runOps, Option.some.injEq] at h
    rw [← h]
    simp [countReads, countWrites]
  | cons op t ih =>
    intro s0 s h
    simp only [runOps] at h
    cases hap : applyOp s0 op with
    | none => rw [hap] at h; cases h
    | some s1 =>
      rw [hap] at h
      simp only [Option.some_bind] at h
      have hI := ih s1 s h
      cases op with
      | rd b =>
        rw [countReads_cons_rd, countWrites_cons_rd]
        simp only [applyOp] at hap
        cases hrd : bcache_read s0 b with
        | none => rw [hrd] at hap; cases hap
        | some pr =>
          rw [hrd] at hap
          simp only [Option.map_some', Option.some.injEq] at hap
          rcases bcache_read_cases s0 b pr.1 pr.2 (by rw [hrd]) with ⟨_, _, _, hr1, hr2, _⟩
          rw [hap] at hr1 hr2
          constructor
          · rw [hI.1, hr1]; omega
          · rw [hI.2, hr2]
      | wr b p =>
        rw [countReads_cons_wr, countWrites_cons_wr]
        simp only [applyOp, Option.some.injEq] at hap
        have hw := write_counts s0 b p
        rw [hap] at hw
        constructor
        · rw [hI.1, hw.1]
        · rw [hI.2, hw.2]; omega
      | sy =>
        rw [countReads_cons_sy, countWrites_cons_sy]
        simp only [applyOp, Option.some.injEq] at hap
        have hw := sync_counts s0
        rw [hap] at hw
        constructor
        · rw [hI.1, hw.1]
        · rw [hI.2, hw.2]

/-- Claim C7: after any completed sequence of operations on a fresh cache,
bcache_nreads returns exactly the number of read operations in the trace
and bcache_nwrites exactly the number of write operations; every completed
call is counted once and only once. -/
theorem c7_counters (d : Disk) (mb : Int) (ops : List Op) (s : Sys)
    (h : runOps (initSys d mb) ops = some s) :
    bcache_nreads s.bc = countReads ops ∧ bcache_nwrites s.bc = countWrites ops := by
  have hc := runOps_counts ops (initSys d mb) s h
  constructor
  · rw [bcache_nreads, hc.1]; simp [initSys, bcache_create]
  · rw [bcache_nwrites, hc.2]; simp [initSys, bcache_create]

/-- The trace used by the c7 witness: one read, one write, one sync. -/
def opsW7 : List Op := [Op.rd 0, Op.wr 1 bufOne, Op.sy]

/-- The state the c7 witness trace ends in. -/
def sW7 : Sys := (runOps (initSys dZ 2) opsW7).getD (initSys dZ 2)

/-- Witness for c7_counters on the concrete trace opsW7. -/
theorem c7_witness :
    runOps (initSys dZ 2) opsW7 = some sW7
    ∧ bcache_nreads sW7.bc = countReads opsW7
    ∧ bcache_nwrites sW7.bc = countWrites opsW7 :=
  ⟨rfl, (c7_counters dZ 2 opsW7 sW7 rfl).1, (c7_counters dZ 2 opsW7 sW7 rfl).2⟩

/-
Small-step interleaving model of N threads concurrently executing
bcache_read (src/unnamed/part_000 lines 96-124) on one block that has
never been read.  The per-block mutex makes the check-and-set of the
state atomic, so each lock-protected region of the C code is one step:
  claimRead : under blk->lock a thread finds FREE (or DIRTY), sets
    READING, releases the lock and goes off to do the device read;
  finishRead : the transferring thread performs disk_read into
    blk->data, retakes the lock, sets READY, broadcasts, sees READY in
    its wait loop and copies the payload out;
  copyReady : under blk->lock a thread finds READY (its wait loop
    condition) and copies the payload out.
A thread that finds READING has no enabled step: it sits in
pthread_cond_wait until the state becomes READY.
-/

/-- Progress of one reader thread. -/
inductive RPhase : Type
| start
| transferring
| done (out : Buf)

/-- Shared state for the concurrent-read model: the block entry plus the
device mock read counter for this block, and the phase of every thread. -/
structure RSys where
  bstate : BlockState
  bdata : Buf
  dreads : Nat
  threads : List RPhase

/-- Whether a thread is currently performing the device transfer. -/
def isTransferringB : RPhase → Bool
| RPhase.transferring => true
| _ => false

/-- Whether a thread has returned from bcache_read. -/
def isDoneB : RPhase → Bool
| RPhase.done _ => true
| _ => false

/-- The payload a finished thread returned, if it is finished. -/
def outOf : RPhase → Option Buf
| RPhase.done b => some b
| _ => none

/-- Number of threads currently performing the device transfer. -/
def countT (l : List RPhase) : Nat := l.countP isTransferringB

/-- One interleaving step of the concurrent-read model, with dc the
device content of the block being read. -/
inductive RStep (dc : Buf) : RSys → RSys → Prop
| claimRead (s : RSys) (i : Nat)
    (hi : s.threads[i]? = some RPhase.start)
    (hs : s.bstate = BlockState.FREE ∨ s.bstate = BlockState.DIRTY) :
    RStep dc s { s with bstate := BlockState.READING,
                        threads := s.threads.set i RPhase.transferring }
| finishRead (s : RSys) (i : Nat)
    (hi : s.threads[i]? = some RPhase.transferring) :
    RStep dc s { bstate := BlockState.READY, bdata := dc, dreads := s.dreads + 1,
                 threads := s.threads.set i (RPhase.done dc) }
| copyReady (s : RSys) (i : Nat)
    (hi : s.threads[i]? = some RPhase.start)
    (hs : s.bstate = BlockState.READY) :
    RStep dc s { s with threads := s.threads.set i (RPhase.done s.bdata) }

/-- Initial state: the entry for a never-read block is FREE with
uninitialized payload, the device mock recorded no read, and the n
readers have all just been called. -/
def rInit (n : Nat) : RSys :=
  { bstate := BlockState.FREE, bdata := mallocGarbage, dreads := 0,
    threads := List.replicate n RPhase.start }

/-- Invariant of the concurrent-read model: either nobody has claimed the
read (FREE, no transfer done), or exactly one thread is transferring
(READING), or the single transfer is complete (READY, payload equals the
device content, and every finished thread returned that payload). -/
def RInv (dc : Buf) (s : RSys) : Prop :=
  (s.bstate = BlockState.FREE ∧ s.dreads = 0 ∧ countT s.threads = 0
     ∧ ∀ p ∈ s.threads, isDoneB p = false)
  ∨ (s.bstate = BlockState.READING ∧ s.dreads = 0 ∧ countT s.threads = 1
     ∧ ∀ p ∈ s.threads, isDoneB p = false)
  ∨ (s.bstate = BlockState.READY ∧ s.bdata = dc ∧ s.dreads = 1
     ∧ countT s.threads = 0
     ∧ ∀ p ∈ s.threads, ∀ b, outOf p = some b → b = dc)

/-- Setting a list element shifts countP by the difference of the old and
new values of the predicate. -/
theorem countT_set (l : List RPhase) (i : Nat) (x y : RPhase)
    (h : l[i]? = some x) :
    countT l + (if isTransferringB y then 1 else 0)
      = countT (l.set i y) + (if isTransferringB x then 1 else 0) := by
  rcases List.getElem?_eq_some_iff.mp h with ⟨hlen, hx⟩
  rw [countT, countT, List.countP_set isTransferringB l i y hlen, hx]
  have := List.boole_getElem_le_countP isTransferringB l i hlen
  rw [hx] at this
  omega

/-- A getElem? hit is a member. -/
theorem mem_of_getElemQ (l : List RPhase) (i : Nat) (x : RPhase)
    (h : l[i]? = some x) : x ∈ l := by
  rcases List.getElem?_eq_some_iff.mp h with ⟨hlen, hx⟩
  exact hx ▸ List.getElem_mem hlen

/-- A thread that is not done reports no payload. -/
theorem outOf_eq_none (p : RPhase) (h : isDoneB p = false) : outOf p = none := by
  cases p with
  | start => rfl
  | transferring => rfl
  | done b => cases h

/-- The invariant is preserved by every step of the concurrent-read
model. -/
theorem RInv_step (dc : Buf) (s t : RSys) (hst : RStep dc s t)
    (hinv : RInv dc s) : RInv dc t := by
  cases hst with
  | claimRead i hi hs =>
    rcases hinv with ⟨h1, h2, h3, h4⟩ | ⟨h1, h2, h3, h4⟩ | ⟨h1, h2, h3, h4, h5⟩
    · refine Or.inr (Or.inl ⟨rfl, h2, ?_, ?_⟩)
      · show countT (s.threads.set i RPhase.transferring) = 1
        have hc := countT_set s.threads i RPhase.start RPhase.transferring hi
        simp [isTransferringB] at hc
        omega
      · intro p hp
        rcases List.mem_or_eq_of_mem_set hp with hp1 | hp1
        · exact h4 p hp1
        · rw [hp1]; rfl
    · rcases hs with hs | hs <;> rw [hs] at h1 <;> cases h1
    · rcases hs with hs | hs <;> rw [hs] at h1 <;> cases h1
  | finishRead i hi =>
    have hmem := mem_of_getElemQ s.threads i RPhase.transferring hi
    rcases hinv with ⟨h1, h2, h3, h4⟩ | ⟨h1, h2, h3, h4⟩ | ⟨h1, h2, h3, h4, h5⟩
    · exact absurd (List.countP_eq_zero.mp h3 RPhase.transferring hmem) (by simp [isTransferringB])
    · refine Or.inr (Or.inr ⟨rfl, rfl, ?_, ?_, ?_⟩)
      · show s.dreads + 1 = 1
        omega
      · show countT (s.threads.set i (RPhase.done dc)) = 0
        have hc := countT_set s.threads i RPhase.transferring (RPhase.done dc) hi
        simp [isTransferringB] at hc
        omega
      · intro p hp b hb
        rcases List.mem_or_eq_of_mem_set hp with hp1 | hp1
        · rw [outOf_eq_none p (h4 p hp1)] at hb; cases hb
        · rw [hp1] at hb
          exact (Option.some.inj hb).symm
    · exact absurd (List.countP_eq_zero.mp h4 RPhase.transferring hmem) (by simp [isTransferringB])
  | copyReady i hi hs =>
    rcases hinv with ⟨h1, h2, h3, h4⟩ | ⟨h1, h2, h3, h4⟩ | ⟨h1, h2, h3, h4, h5⟩
    · rw [hs] at h1; cases h1
    · rw [hs] at h1; cases h1
    · refine Or.inr (Or.inr ⟨hs, h2, h3, ?_, ?_⟩)
      · show countT (s.threads.set i (RPhase.done s.bdata)) = 0
        have hc := countT_set s.threads i RPhase.start (RPhase.done s.bdata) hi
        simp [isTransferringB] at hc
        omega
      · intro p hp b hb
        rcases List.mem_or_eq_of_mem_set hp with hp1 | hp1
        · exact h5 p hp1 b hb
        · rw [hp1] at hb
          rw [← Option.some.inj hb, h2]

/-- The invariant holds in the initial state of the concurrent-read
model. -/
theorem RInv_init (dc : Buf) (n : Nat) : RInv dc (rInit n) := by
  refine Or.inl ⟨rfl, rfl, ?_, ?_⟩
  · rw [countT, List.countP_eq_zero]
    intro p hp
    rw [List.eq_of_mem_replicate hp]
    simp [isTransferringB]
  · intro p hp
    rw [List.eq_of_mem_replicate hp]
    rfl

/-- The invariant holds in every state reachable from the initial state. -/
theorem RInv_reach (dc : Buf) (n : Nat) (s : RSys)
    (h : Relation.ReflTransGen (RStep dc) (rInit n) s) : RInv dc s := by
  induction h with
  | refl => exact RInv_init dc n
  | tail h1 h2 ih => exact RInv_step dc _ _ h2 ih

/-- Every step preserves the number of threads. -/
theorem RStep_length (dc : Buf) (s t : RSys) (h : RStep dc s t) :
    t.threads.length = s.threads.length := by
  cases h <;> simp [List.length_set]

/-- The number of threads is constant along every execution. -/
theorem RReach_length (dc : Buf) (n : Nat) (s : RSys)
    (h : Relation.ReflTransGen (RStep dc) (rInit n) s) : s.threads.length = n := by
  induction h with
  | refl => simp [rInit]
  | tail h1 h2 ih => rw [RStep_length dc _ _ h2, ih]

/-- Claim C8: in the interleaving model of N concurrent readers of a
never-before-read block, every execution in which all N callers have
returned issued exactly one device read, and every caller received the
device content of the block. -/
theorem c8_single_device_read (dc : Buf) (n : Nat) (s : RSys)
    (hn : 0 < n)
    (hreach : Relation.ReflTransGen (RStep dc) (rInit n) s)
    (hdone : ∀ p ∈ s.threads, isDoneB p = true) :
    s.dreads = 1 ∧ ∀ p ∈ s.threads, p = RPhase.done dc := by
  have hinv := RInv_reach dc n s hreach
  have hlen : s.threads.length = n := RReach_length dc n s hreach
  have hpos : 0 < s.threads.length := hlen ▸ hn
  obtain ⟨p0, hp0⟩ : ∃ p, p ∈ s.threads := by
    cases hth : s.threads with
    | nil => rw [hth] at hpos; cases hpos
    | cons a t => exact ⟨a, hth ▸ List.mem_cons_self a t⟩
  rcases hinv with ⟨h1, h2, h3, h4⟩ | ⟨h1, h2, h3, h4⟩ | ⟨h1, h2, h3, h4, h5⟩
  · exact absurd ((h4 p0 hp0).symm.trans (hdone p0 hp0)) Bool.false_ne_true
  · exact absurd ((h4 p0 hp0).symm.trans (hdone p0 hp0)) Bool.false_ne_true
  · refine ⟨h3, fun p hp => ?_⟩
    have hd := hdone p hp
    cases p with
    | start => cases hd
    | transferring => cases hd
    | done b => rw [h5 (RPhase.done b) hp b rfl]

/-- Intermediate state of the concrete one-reader execution used by the
c8 witness: the single thread has claimed the read. -/
def sW8mid : RSys :=
  { bstate := BlockState.READING, bdata := mallocGarbage, dreads := 0,
    threads := [RPhase.transferring] }

/-- Final state of the concrete one-reader execution used by the c8
witness: the read was claimed and completed, the single thread holds the
device content. -/
def sW8 : RSys :=
  { bstate := BlockState.READY, bdata := bufSeven, dreads := 1,
    threads := [RPhase.done bufSeven] }

/-- Witness for c8_single_device_read: one reader, device content all
sevens, the two-step execution claim-then-finish; the theorem yields that
exactly one device read was issued. -/
theorem c8_witness : 0 < 1 ∧ sW8.dreads = 1 :=
  ⟨by decide,
   (c8_single_device_read bufSeven 1 sW8 (by decide)
     (Relation.ReflTransGen.head
       (RStep.claimRead (rInit 1) 0 rfl (Or.inl rfl))
       (Relation.ReflTransGen.single
         (RStep.finishRead sW8mid 0 rfl)))
     (fun p hp => by
        have h := List.mem_singleton.mp hp
        rw [h]
        rfl)).1⟩
